import Mathlib

/-!
# Verification of the micro-ESPectre CSI motion-segmentation pipeline

Shallow embedding of the core data structures and operations of the
micro-ESPectre repository (`src/micro-espectre/src/`):

* `segmentation.py` — `SegmentationContext` (turbulence ring buffer, two-pass
  moving variance, IDLE/MOTION state machine, spatial-turbulence reduction);
* `filters.py` — `HampelFilter` (median/MAD outlier rejection) and
  `LowPassFilter` (1st-order IIR difference equation);
* `nbvi_calibrator.py` — `_select_with_spacing` (subcarrier selection with
  spectral de-correlation) and the buffer lifecycle of a calibration run;
* `nvs_storage.py` — `save_full_config` / `load_and_apply` persistence;
* `mqtt/commands.py` — the `segmentation_threshold` command handler.

Python floats are modelled as exact rationals (`ℚ`); the spatial-turbulence
computation, which takes square roots, is modelled over `ℝ`.  Machine spatial
state (files, MQTT transport) is abstracted to explicit state passing.
-/

namespace Espectre

/-- `SegmentationContext.STATE_IDLE = 0` (segmentation.py). -/
def STATE_IDLE : ℕ := 0

/-- `SegmentationContext.STATE_MOTION = 1` (segmentation.py). -/
def STATE_MOTION : ℕ := 1

/-- State of `filters.py`'s `HampelFilter`: circular buffer of the last
`window_size` raw inputs plus occupancy counters.  The Python object also keeps
a pre-allocated scratch `sorted_buffer`; sorting a copy of the occupied part of
the buffer is modelled by `List.insertionSort` on `buffer.take count`. -/
structure HampelFilter where
  window_size : ℕ
  /-- `threshold * 1.4826`, pre-computed in `__init__`. -/
  scaled_threshold : ℚ
  buffer : List ℚ
  count : ℕ
  index : ℕ
deriving Repr, DecidableEq

/-- `HampelFilter.__init__(window_size, threshold)` (filters.py). -/
def HampelFilter.init (window_size : ℕ) (threshold : ℚ) : HampelFilter :=
  { window_size := window_size
    scaled_threshold := threshold * (14826 / 10000)
    buffer := List.replicate window_size 0
    count := 0
    index := 0 }

/-- `HampelFilter.filter(value)` (filters.py lines 174–224): push `value` into
the circular buffer; with fewer than 3 stored values pass it through; otherwise
compute the window median and MAD from sorted copies and replace `value` with
the median when `MAD > 1e-6` and `|value - median| / MAD` exceeds the scaled
threshold.  Returns the updated filter state and the output value. -/
def HampelFilter.filter (f : HampelFilter) (value : ℚ) : HampelFilter × ℚ :=
  let buffer := f.buffer.set f.index value
  let index := (f.index + 1) % f.window_size
  let count := if f.count < f.window_size then f.count + 1 else f.count
  let f1 : HampelFilter := { f with buffer := buffer, index := index, count := count }
  if count < 3 then (f1, value)
  else
    let mid := count / 2
    let window := buffer.take count
    let sortedWindow := window.insertionSort (· ≤ ·)
    let median := sortedWindow.getD mid 0
    let deviations := window.map fun x => |x - median|
    let sortedDev := deviations.insertionSort (· ≤ ·)
    let mad := sortedDev.getD mid 0
    if (1 : ℚ) / 1000000 < mad ∧ f.scaled_threshold < |value - median| / mad then
      (f1, median)
    else
      (f1, value)

/-- State of `filters.py`'s `LowPassFilter`.  The coefficients `b0`, `a1` are
computed from `tan(π·fc/fs)` in the Python constructor; they are carried here
as abstract state fields since no claim evaluates them. -/
structure LowPassFilter where
  enabled : Bool
  b0 : ℚ
  a1 : ℚ
  x_prev : ℚ
  y_prev : ℚ
  initialized : Bool
deriving Repr, DecidableEq

/-- `LowPassFilter.filter(value)` (filters.py lines 66–94). -/
def LowPassFilter.filter (f : LowPassFilter) (value : ℚ) : LowPassFilter × ℚ :=
  if ¬ f.enabled then (f, value)
  else if ¬ f.initialized then
    ({ f with x_prev := value, y_prev := value, initialized := true }, value)
  else
    let y := f.b0 * value + f.b0 * f.x_prev - f.a1 * f.y_prev
    ({ f with x_prev := value, y_prev := y }, y)

/-- The mutable state of `segmentation.py`'s `SegmentationContext`.  The
feature extractor/detector members are not modelled (no claim concerns them). -/
structure SegmentationContext where
  window_size : ℕ
  threshold : ℚ
  normalization_scale : ℚ
  turbulence_buffer : List ℚ
  buffer_index : ℕ
  buffer_count : ℕ
  state : ℕ
  packet_index : ℕ
  current_moving_variance : ℚ
  last_turbulence : ℚ
  last_amplitudes : Option (List ℚ)
  hampel_filter : Option HampelFilter
  lowpass_filter : Option LowPassFilter
deriving Repr, DecidableEq

/-- `SegmentationContext.__init__` (segmentation.py lines 38–134), with the
optional filters passed already constructed (the Python constructor builds
them from configuration flags). -/
def SegmentationContext.init (window_size : ℕ) (threshold normalization_scale : ℚ)
    (hampel : Option HampelFilter) (lowpass : Option LowPassFilter) :
    SegmentationContext :=
  { window_size := window_size
    threshold := threshold
    normalization_scale := normalization_scale
    turbulence_buffer := List.replicate window_size 0
    buffer_index := 0
    buffer_count := 0
    state := STATE_IDLE
    packet_index := 0
    current_moving_variance := 0
    last_turbulence := 0
    last_amplitudes := none
    hampel_filter := hampel
    lowpass_filter := lowpass }

/-- `SegmentationContext.compute_variance_two_pass(values)` (segmentation.py
lines 136–167): mean in a first pass, then mean of squared deviations. -/
def compute_variance_two_pass (values : List ℚ) : ℚ :=
  let n := values.length
  if n = 0 then 0
  else
    let mean := values.sum / n
    (values.map fun x => (x - mean) * (x - mean)).sum / n

/-- `SegmentationContext._calculate_variance_two_pass` (segmentation.py lines
233–245): 0 while the ring buffer is not yet full, else the two-pass variance
of the occupied part of the buffer. -/
def SegmentationContext.calculate_variance_two_pass (ctx : SegmentationContext) : ℚ :=
  if ctx.buffer_count < ctx.window_size then 0
  else compute_variance_two_pass (ctx.turbulence_buffer.take ctx.buffer_count)

/-- `SegmentationContext.add_turbulence(turbulence)` (segmentation.py lines
256–295): normalize, Hampel-filter, low-pass-filter, store in the ring buffer,
advance the write index modulo the capacity, bump the fill count (capped), and
count the packet.  Variance is deliberately not recomputed here. -/
def SegmentationContext.add_turbulence (ctx : SegmentationContext) (turbulence : ℚ) :
    SegmentationContext :=
  let normalized_turbulence := turbulence * ctx.normalization_scale
  let hampelStep : Option HampelFilter × ℚ :=
    match ctx.hampel_filter with
    | none => (none, normalized_turbulence)
    | some h => ((h.filter normalized_turbulence).1, (h.filter normalized_turbulence).2)
  let lowpassStep : Option LowPassFilter × ℚ :=
    match ctx.lowpass_filter with
    | none => (none, hampelStep.2)
    | some lp => ((lp.filter hampelStep.2).1, (lp.filter hampelStep.2).2)
  let filtered_turbulence := lowpassStep.2
  { ctx with
    hampel_filter := hampelStep.1
    lowpass_filter := lowpassStep.1
    last_turbulence := filtered_turbulence
    turbulence_buffer := ctx.turbulence_buffer.set ctx.buffer_index filtered_turbulence
    buffer_index := (ctx.buffer_index + 1) % ctx.window_size
    buffer_count :=
      if ctx.buffer_count < ctx.window_size then ctx.buffer_count + 1 else ctx.buffer_count
    packet_index := ctx.packet_index + 1 }

/-- `SegmentationContext.update_state()` (segmentation.py lines 297–322):
recompute the moving variance lazily and run the hysteresis-free comparator
IDLE→MOTION on `variance > threshold`, MOTION→IDLE on `variance < threshold`. -/
def SegmentationContext.update_state (ctx : SegmentationContext) : SegmentationContext :=
  let v := ctx.calculate_variance_two_pass
  let newState :=
    if ctx.state = STATE_IDLE then
      if ctx.threshold < v then STATE_MOTION else ctx.state
    else if ctx.state = STATE_MOTION then
      if v < ctx.threshold then STATE_IDLE else ctx.state
    else ctx.state
  { ctx with current_moving_variance := v, state := newState }

/-- C10: `update_state` mutates only `current_moving_variance` and `state`;
the turbulence buffer contents, `buffer_index`, `buffer_count`, `window_size`,
`threshold`, `normalization_scale`, `last_turbulence` and `last_amplitudes`
are identical before and after the call. -/
theorem update_state_frame (ctx : SegmentationContext) :
    ctx.update_state.turbulence_buffer = ctx.turbulence_buffer ∧
    ctx.update_state.buffer_index = ctx.buffer_index ∧
    ctx.update_state.buffer_count = ctx.buffer_count ∧
    ctx.update_state.window_size = ctx.window_size ∧
    ctx.update_state.threshold = ctx.threshold ∧
    ctx.update_state.normalization_scale = ctx.normalization_scale ∧
    ctx.update_state.last_turbulence = ctx.last_turbulence ∧
    ctx.update_state.last_amplitudes = ctx.last_amplitudes :=
  ⟨rfl, rfl, rfl, rfl, rfl, rfl, rfl, rfl⟩

/-- C3: on a full buffer, `update_state` transitions IDLE→MOTION exactly when
the computed moving variance is strictly greater than `threshold`, MOTION→IDLE
exactly when it is strictly less, and holds the current state on exact
equality (no epsilon). -/
theorem update_state_comparator (ctx : SegmentationContext)
    (hfull : ctx.buffer_count = ctx.window_size) :
    (ctx.state = STATE_IDLE →
      (ctx.update_state.state = STATE_MOTION ↔
        ctx.threshold <
          compute_variance_two_pass (ctx.turbulence_buffer.take ctx.buffer_count))) ∧
    (ctx.state = STATE_MOTION →
      (ctx.update_state.state = STATE_IDLE ↔
        compute_variance_two_pass (ctx.turbulence_buffer.take ctx.buffer_count) <
          ctx.threshold)) ∧
    (compute_variance_two_pass (ctx.turbulence_buffer.take ctx.buffer_count) =
        ctx.threshold →
      ctx.update_state.state = ctx.state) := by
  have hv : ctx.calculate_variance_two_pass =
      compute_variance_two_pass (ctx.turbulence_buffer.take ctx.buffer_count) := by
    unfold SegmentationContext.calculate_variance_two_pass
    rw [if_neg]
    omega
  refine ⟨?_, ?_, ?_⟩
  · intro hidle
    unfold SegmentationContext.update_state
    by_cases h : ctx.threshold <
        compute_variance_two_pass (ctx.turbulence_buffer.take ctx.buffer_count)
    · simp [hv, hidle, h, STATE_IDLE, STATE_MOTION]
    · simp [hv, hidle, h, STATE_IDLE, STATE_MOTION]
  · intro hmotion
    unfold SegmentationContext.update_state
    by_cases h : compute_variance_two_pass (ctx.turbulence_buffer.take ctx.buffer_count) <
        ctx.threshold
    · simp [hv, hmotion, h, STATE_IDLE, STATE_MOTION]
    · simp [hv, hmotion, h, STATE_IDLE, STATE_MOTION]
  · intro heq
    unfold SegmentationContext.update_state
    by_cases hidle : ctx.state = STATE_IDLE
    · simp [hv, hidle, heq, STATE_IDLE, STATE_MOTION]
    · by_cases hmotion : ctx.state = STATE_MOTION
      · simp [hv, hidle, hmotion, heq]
      · simp [hv, hidle, hmotion]

/-- Concrete context for the C3 witness: full window of size 2 holding
`[0, 2]`, whose two-pass variance is exactly the threshold 1. -/
def C3ctx : SegmentationContext :=
  { window_size := 2, threshold := 1, normalization_scale := 1
    turbulence_buffer := [0, 2], buffer_index := 0, buffer_count := 2
    state := STATE_IDLE, packet_index := 0, current_moving_variance := 0
    last_turbulence := 0, last_amplitudes := none
    hampel_filter := none, lowpass_filter := none }

/-- Witness for C3 at `C3ctx`: the buffer is full, the variance equals the
threshold exactly, and the state is held. -/
theorem update_state_comparator_witness :
    C3ctx.buffer_count = C3ctx.window_size ∧ C3ctx.update_state.state = C3ctx.state := by
  refine ⟨rfl, (update_state_comparator C3ctx rfl).2.2 ?_⟩
  norm_num [C3ctx, compute_variance_two_pass]

/-- The value the spec requires `add_turbulence` to store: the raw turbulence
multiplied by `normalization_scale`, then passed through the Hampel filter if
present, then through the low-pass filter if present (in that fixed order). -/
def filter_chain_value (ctx : SegmentationContext) (raw : ℚ) : ℚ :=
  let normalized := raw * ctx.normalization_scale
  let afterHampel :=
    match ctx.hampel_filter with
    | none => normalized
    | some h => (h.filter normalized).2
  match ctx.lowpass_filter with
  | none => afterHampel
  | some lp => (lp.filter afterHampel).2

/-- C6: `add_turbulence(raw)` writes exactly the normalize→Hampel→low-pass
value into the ring buffer at the current write index, advances the write
index modulo `window_size`, increments the fill count up to at most
`window_size`, and leaves `current_moving_variance` and `state` unchanged. -/
theorem add_turbulence_spec (ctx : SegmentationContext) (raw : ℚ)
    (hcount : ctx.buffer_count ≤ ctx.window_size) :
    (ctx.add_turbulence raw).turbulence_buffer =
      ctx.turbulence_buffer.set ctx.buffer_index (filter_chain_value ctx raw) ∧
    (ctx.add_turbulence raw).buffer_index = (ctx.buffer_index + 1) % ctx.window_size ∧
    (ctx.add_turbulence raw).buffer_count = min (ctx.buffer_count + 1) ctx.window_size ∧
    (ctx.add_turbulence raw).current_moving_variance = ctx.current_moving_variance ∧
    (ctx.add_turbulence raw).state = ctx.state := by
  unfold SegmentationContext.add_turbulence filter_chain_value
  cases ctx.hampel_filter <;> cases ctx.lowpass_filter <;>
    refine ⟨rfl, rfl, ?_, rfl, rfl⟩ <;>
    (show (if ctx.buffer_count < ctx.window_size then ctx.buffer_count + 1
        else ctx.buffer_count) = _
     split
     · exact (min_eq_left (by omega)).symm
     · rw [min_eq_right (by omega)]; omega)

/-- Concrete context for the C6 witness: partially filled window. -/
def C6ctx : SegmentationContext :=
  { window_size := 3, threshold := 1, normalization_scale := 2
    turbulence_buffer := [5, 0, 0], buffer_index := 1, buffer_count := 1
    state := STATE_IDLE, packet_index := 1, current_moving_variance := 0
    last_turbulence := 5, last_amplitudes := none
    hampel_filter := none, lowpass_filter := none }

/-- Witness for C6 at `C6ctx` with raw input 4 (stored value `4 * 2 = 8`). -/
theorem add_turbulence_spec_witness :
    C6ctx.buffer_count ≤ C6ctx.window_size ∧
    (C6ctx.add_turbulence 4).turbulence_buffer =
      C6ctx.turbulence_buffer.set C6ctx.buffer_index (filter_chain_value C6ctx 4) ∧
    (C6ctx.add_turbulence 4).buffer_count = min (C6ctx.buffer_count + 1) C6ctx.window_size ∧
    (C6ctx.add_turbulence 4).state = C6ctx.state := by
  obtain ⟨h1, _, h3, _, h5⟩ := add_turbulence_spec C6ctx 4 (by norm_num [C6ctx])
  exact ⟨by norm_num [C6ctx], h1, h3, h5⟩

/-- `add_turbulence` never changes the detection state. -/
theorem add_turbulence_state (ctx : SegmentationContext) (t : ℚ) :
    (ctx.add_turbulence t).state = ctx.state := rfl

/-- `add_turbulence` never changes the window size. -/
theorem add_turbulence_window_size (ctx : SegmentationContext) (t : ℚ) :
    (ctx.add_turbulence t).window_size = ctx.window_size := rfl

/-- `add_turbulence` never changes the threshold. -/
theorem add_turbulence_threshold (ctx : SegmentationContext) (t : ℚ) :
    (ctx.add_turbulence t).threshold = ctx.threshold := rfl

/-- The fill-count bookkeeping of `add_turbulence`, as written in the source. -/
theorem add_turbulence_count (ctx : SegmentationContext) (t : ℚ) :
    (ctx.add_turbulence t).buffer_count =
      if ctx.buffer_count < ctx.window_size then ctx.buffer_count + 1
      else ctx.buffer_count := rfl

/-- Feeding a whole list of turbulence values preserves state, window size and
threshold, and grows the fill count to `min (count + n) window_size`. -/
theorem foldl_add_turbulence_invariant (xs : List ℚ) :
    ∀ ctx : SegmentationContext, ctx.buffer_count ≤ ctx.window_size →
      (xs.foldl SegmentationContext.add_turbulence ctx).state = ctx.state ∧
      (xs.foldl SegmentationContext.add_turbulence ctx).window_size = ctx.window_size ∧
      (xs.foldl SegmentationContext.add_turbulence ctx).threshold = ctx.threshold ∧
      (xs.foldl SegmentationContext.add_turbulence ctx).buffer_count =
        min (ctx.buffer_count + xs.length) ctx.window_size := by
  induction xs with
  | nil =>
    intro ctx h
    refine ⟨rfl, rfl, rfl, ?_⟩
    simp only [List.foldl_nil, List.length_nil, Nat.add_zero]
    omega
  | cons x xs ih =>
    intro ctx h
    rw [List.foldl_cons]
    have h1 : (ctx.add_turbulence x).buffer_count ≤ (ctx.add_turbulence x).window_size := by
      rw [add_turbulence_count, add_turbulence_window_size]
      split <;> omega
    obtain ⟨hs, hw, ht, hc⟩ := ih (ctx.add_turbulence x) h1
    rw [add_turbulence_state] at hs
    rw [add_turbulence_window_size] at hw
    rw [add_turbulence_threshold] at ht
    rw [add_turbulence_count, add_turbulence_window_size] at hc
    refine ⟨hs, hw, ht, ?_⟩
    rw [hc]
    simp only [List.length_cons]
    split <;> omega

/-- C4: for any window size `W` and any input sequence shorter than `W` fed
from a cold context (state IDLE, empty buffer — the situation after
construction or a full reset), `update_state` computes moving variance 0 and
the state stays IDLE.  The hypothesis `0 ≤ threshold` reflects the data
model's documented threshold range 0–10. -/
theorem cold_start_invariant (W : ℕ) (ctx : SegmentationContext) (xs : List ℚ)
    (hW : ctx.window_size = W) (hidle : ctx.state = STATE_IDLE)
    (hcount : ctx.buffer_count = 0) (hthr : 0 ≤ ctx.threshold)
    (hlen : xs.length < W) :
    ((xs.foldl SegmentationContext.add_turbulence ctx).update_state).current_moving_variance
        = 0 ∧
    ((xs.foldl SegmentationContext.add_turbulence ctx).update_state).state = STATE_IDLE := by
  obtain ⟨hs, hw, ht, hc⟩ := foldl_add_turbulence_invariant xs ctx (by omega)
  have hvar : (xs.foldl SegmentationContext.add_turbulence ctx).calculate_variance_two_pass
      = 0 := by
    unfold SegmentationContext.calculate_variance_two_pass
    rw [if_pos]
    omega
  constructor
  · show (SegmentationContext.update_state _).current_moving_variance = 0
    unfold SegmentationContext.update_state
    exact hvar
  · show (SegmentationContext.update_state _).state = STATE_IDLE
    unfold SegmentationContext.update_state
    have hnot : ¬ (xs.foldl SegmentationContext.add_turbulence ctx).threshold < 0 := by
      rw [ht]; exact not_lt.mpr hthr
    simp [hvar, hs, hidle, hnot]

/-- Witness for C4: two inputs into a cold window of size 3 with threshold 1:
variance 0 and state IDLE. -/
theorem cold_start_invariant_witness :
    (([4, 7] : List ℚ).foldl SegmentationContext.add_turbulence
        (SegmentationContext.init 3 1 1 none none)).update_state.state = STATE_IDLE :=
  (cold_start_invariant 3 (SegmentationContext.init 3 1 1 none none) [4, 7]
    rfl rfl rfl (by norm_num [SegmentationContext.init]) (by norm_num)).2

/-- The `segmentation` object written by `NVSStorage.save_full_config`
(nvs_storage.py lines 125–133): exactly `threshold` and `window_size` —
`normalization_scale` is not persisted by the source. -/
structure SegPersistedConfig where
  threshold : ℚ
  window_size : ℕ
deriving Repr, DecidableEq

/-- The full configuration document written by `save_full_config`. -/
structure FullConfig where
  segmentation : SegPersistedConfig
  subcarrier_indices : List ℕ
  traffic_rate : Option ℕ
deriving Repr, DecidableEq

/-- `NVSStorage.save_full_config(seg, config_module, traffic_gen)`
(nvs_storage.py lines 116–141), with the written JSON document as the result
and the file system abstracted away. -/
def save_full_config (seg : SegmentationContext) (selected_subcarriers : List ℕ)
    (traffic_rate : Option ℕ) : FullConfig :=
  { segmentation := { threshold := seg.threshold, window_size := seg.window_size }
    subcarrier_indices := selected_subcarriers
    traffic_rate := traffic_rate }

/-- `NVSStorage.load_and_apply(seg, config_module)` (nvs_storage.py lines
143–176) applied to a configuration document that contains a `segmentation`
object (as every document written by `save_full_config` does): sets
`threshold` and `window_size` from the stored values and resets the ring
buffer.  No other field of the context is touched. -/
def load_and_apply (seg : SegmentationContext) (cfg : FullConfig) : SegmentationContext :=
  { seg with
    threshold := cfg.segmentation.threshold
    window_size := cfg.segmentation.window_size
    turbulence_buffer := List.replicate cfg.segmentation.window_size 0
    buffer_index := 0
    buffer_count := 0 }

/-- C1 (code bug): `save_full_config` followed by `load_and_apply` on a fresh
context reproduces `threshold` and `window_size` but NOT
`normalization_scale`: the source never persists it, so the fresh context
keeps its own scale.  Evaluated at the repository's own test data
(threshold 2.0, window 75, scale 1.5 — `test_nvs_storage.py`), the fresh
context ends with scale 1 instead of 3/2. -/
theorem save_load_loses_normalization_scale :
    (load_and_apply (SegmentationContext.init 50 1 1 none none)
        (save_full_config (SegmentationContext.init 75 2 (3 / 2) none none)
          [11, 12, 13, 14, 15, 16, 17, 18, 19, 20, 21, 22] none)).threshold = 2 ∧
    (load_and_apply (SegmentationContext.init 50 1 1 none none)
        (save_full_config (SegmentationContext.init 75 2 (3 / 2) none none)
          [11, 12, 13, 14, 15, 16, 17, 18, 19, 20, 21, 22] none)).window_size = 75 ∧
    (load_and_apply (SegmentationContext.init 50 1 1 none none)
        (save_full_config (SegmentationContext.init 75 2 (3 / 2) none none)
          [11, 12, 13, 14, 15, 16, 17, 18, 19, 20, 21, 22] none)).normalization_scale = 1 ∧
    (SegmentationContext.init 75 2 (3 / 2) none none).normalization_scale = 3 / 2 ∧
    (load_and_apply (SegmentationContext.init 50 1 1 none none)
        (save_full_config (SegmentationContext.init 75 2 (3 / 2) none none)
          [11, 12, 13, 14, 15, 16, 17, 18, 19, 20, 21, 22] none)).normalization_scale ≠
      (SegmentationContext.init 75 2 (3 / 2) none none).normalization_scale := by
  refine ⟨rfl, rfl, rfl, rfl, ?_⟩
  norm_num [load_and_apply, save_full_config, SegmentationContext.init]

/-- The round-trip does restore `threshold` and `window_size`, for every
original and every fresh context. -/
theorem save_load_restores_threshold_window (seg fresh : SegmentationContext)
    (subs : List ℕ) (rate : Option ℕ) :
    (load_and_apply fresh (save_full_config seg subs rate)).threshold = seg.threshold ∧
    (load_and_apply fresh (save_full_config seg subs rate)).window_size = seg.window_size ∧
    (load_and_apply fresh (save_full_config seg subs rate)).normalization_scale =
      fresh.normalization_scale :=
  ⟨rfl, rfl, rfl⟩

/-- A value field of an MQTT command payload: absent, present but not
convertible by `float(...)`, or a number. -/
inductive CmdValue where
  | missing : CmdValue
  | nonNumeric : CmdValue
  | num (q : ℚ) : CmdValue
deriving Repr, DecidableEq

/-- The kind of response the command handler sends. -/
inductive CmdResponse where
  | ok : CmdResponse
  | error : CmdResponse
deriving Repr, DecidableEq

/-- Modelled from the spec: `SEG_THRESHOLD_MIN` is imported by
`mqtt/commands.py` from `src.config` but is not defined in the corpus's
`src/config.py`; the spec gives the command range `value: float 0–10`. -/
def SEG_THRESHOLD_MIN : ℚ := 0

/-- Modelled from the spec: `SEG_THRESHOLD_MAX`, see `SEG_THRESHOLD_MIN`. -/
def SEG_THRESHOLD_MAX : ℚ := 10

/-- `MQTTCommands.cmd_segmentation_threshold(cmd_obj)` (mqtt/commands.py lines
240–263): missing `value` field or a `float(...)` conversion failure yields an
error response and no state change; an out-of-range number yields an error
response and no state change; otherwise the threshold is set and the change is
acknowledged.  (The NVS save that follows the assignment does not touch the
segmentation context.) -/
def cmd_segmentation_threshold (seg : SegmentationContext) (v : CmdValue) :
    SegmentationContext × CmdResponse :=
  match v with
  | .missing => (seg, .error)
  | .nonNumeric => (seg, .error)
  | .num q =>
    if q < SEG_THRESHOLD_MIN ∨ SEG_THRESHOLD_MAX < q then (seg, .error)
    else ({ seg with threshold := q }, .ok)

/-- C9: a `segmentation_threshold` command with a missing, non-numeric or
out-of-range (outside 0–10) value produces an error response and leaves the
whole segmentation state unchanged; an in-range value sets exactly the
threshold. -/
theorem cmd_segmentation_threshold_spec (seg : SegmentationContext) (v : CmdValue) :
    (v = .missing ∨ v = .nonNumeric →
      cmd_segmentation_threshold seg v = (seg, .error)) ∧
    (∀ q : ℚ, v = .num q → (q < 0 ∨ 10 < q) →
      cmd_segmentation_threshold seg v = (seg, .error)) ∧
    (∀ q : ℚ, v = .num q → 0 ≤ q → q ≤ 10 →
      cmd_segmentation_threshold seg v = ({ seg with threshold := q }, .ok)) := by
  refine ⟨?_, ?_, ?_⟩
  · rintro (rfl | rfl) <;> rfl
  · rintro q rfl hq
    simp only [cmd_segmentation_threshold, SEG_THRESHOLD_MIN, SEG_THRESHOLD_MAX]
    rw [if_pos hq]
  · rintro q rfl h0 h10
    simp only [cmd_segmentation_threshold, SEG_THRESHOLD_MIN, SEG_THRESHOLD_MAX]
    rw [if_neg]
    push_neg
    exact ⟨h0, h10⟩

/-- Concrete context for the C9 witness. -/
def C9ctx : SegmentationContext := SegmentationContext.init 50 1 1 none none

/-- Witness for C9: value 11 is rejected with no state change, value 5/2 is
applied. -/
theorem cmd_segmentation_threshold_witness :
    cmd_segmentation_threshold C9ctx (.num 11) = (C9ctx, .error) ∧
    cmd_segmentation_threshold C9ctx (.num (5 / 2)) =
      ({ C9ctx with threshold := 5 / 2 }, .ok) :=
  ⟨(cmd_segmentation_threshold_spec C9ctx (.num 11)).2.1 11 rfl (by norm_num),
   (cmd_segmentation_threshold_spec C9ctx (.num (5 / 2))).2.2 (5 / 2) rfl
     (by norm_num) (by norm_num)⟩

/-- Outcome of one `run_nbvi_calibration` invocation (main.py lines 171–307):
whether `NBVICalibrator.free_buffer` was executed before returning, the value
of the `g_state.calibration_mode` flag at return, and whether the run aborted
on the collection timeout. -/
structure CalibRunResult where
  free_buffer_called : Bool
  calibration_mode : Bool
  timed_out : Bool
deriving Repr, DecidableEq

/-- `config.NBVI_BUFFER_SIZE` (config.py). -/
def NBVI_BUFFER_SIZE : ℕ := 700

/-- `max_timeout = 15000` in `run_nbvi_calibration` (main.py line 220). -/
def CALIB_MAX_TIMEOUT : ℕ := 15000

/-- The packet-collection loop of `run_nbvi_calibration` (main.py lines
225–307), with the CSI driver abstracted to the list of poll results (`true` =
a frame was available).  Each successful read adds one packet and resets the
timeout counter; each empty poll bumps the timeout counter, and once it
reaches `max_timeout` the function returns `False` immediately — without
executing `free_buffer()` (line 300) or clearing `calibration_mode` (line
305), which only happen after the loop completes.  `none` means the abstract
poll stream was exhausted before either exit was reached. -/
def run_nbvi_calibration_loop (bufferSize maxT : ℕ) :
    List Bool → ℕ → ℕ → Option CalibRunResult
  | [], progress, _ =>
    if bufferSize ≤ progress then
      some { free_buffer_called := true, calibration_mode := false, timed_out := false }
    else none
  | f :: rest, progress, timeoutCounter =>
    if bufferSize ≤ progress then
      some { free_buffer_called := true, calibration_mode := false, timed_out := false }
    else if f then
      run_nbvi_calibration_loop bufferSize maxT rest (progress + 1) 0
    else if maxT ≤ timeoutCounter + 1 then
      some { free_buffer_called := false, calibration_mode := true, timed_out := true }
    else
      run_nbvi_calibration_loop bufferSize maxT rest progress (timeoutCounter + 1)

/-- `run_nbvi_calibration` at production constants. -/
def run_nbvi_calibration (frames : List Bool) : Option CalibRunResult :=
  run_nbvi_calibration_loop NBVI_BUFFER_SIZE CALIB_MAX_TIMEOUT frames 0 0

/-- On a stream of consecutive empty polls the collection loop hits the
timeout exit, which reports the buffer as not freed. -/
theorem run_loop_all_empty (bufferSize maxT progress : ℕ)
    (hp : progress < bufferSize) :
    ∀ n t, t < maxT → maxT ≤ t + n →
      run_nbvi_calibration_loop bufferSize maxT (List.replicate n false) progress t =
        some { free_buffer_called := false, calibration_mode := true, timed_out := true } := by
  intro n
  induction n with
  | zero => intro t ht hle; omega
  | succ n ih =>
    intro t ht hle
    rw [List.replicate_succ]
    unfold run_nbvi_calibration_loop
    rw [if_neg (by omega)]
    simp only [Bool.false_eq_true, if_false]
    by_cases hT : maxT ≤ t + 1
    · rw [if_pos hT]
    · rw [if_neg hT]
      exact ih (t + 1) (by omega) (by omega)

/-- C2 (code bug): a calibration run that times out waiting for CSI packets
(15000 consecutive empty polls) returns without executing `free_buffer` — the
calibration buffer file leaks, and `calibration_mode` stays set. -/
theorem calibration_timeout_leaks_buffer :
    run_nbvi_calibration (List.replicate 15000 false) =
      some { free_buffer_called := false, calibration_mode := true, timed_out := true } :=
  run_loop_all_empty NBVI_BUFFER_SIZE CALIB_MAX_TIMEOUT 0 (by norm_num [NBVI_BUFFER_SIZE])
    15000 0 (by norm_num [CALIB_MAX_TIMEOUT]) (by norm_num [CALIB_MAX_TIMEOUT])

/-- The window median as the spec describes it: the middle element (upper
middle for even length, `mid = n >> 1`) of the sorted window. -/
def windowMedian (window : List ℚ) : ℚ :=
  (window.insertionSort (· ≤ ·)).getD (window.length / 2) 0

/-- The window MAD: middle element of the sorted absolute deviations from the
window median. -/
def windowMad (window : List ℚ) : ℚ :=
  ((window.map fun x => |x - windowMedian window|).insertionSort (· ≤ ·)).getD
    (window.length / 2) 0

/-- The filter window immediately after `value` has been pushed: the occupied
slice of the updated circular buffer. -/
def HampelFilter.postWindow (f : HampelFilter) (value : ℚ) : List ℚ :=
  (f.buffer.set f.index value).take
    (if f.count < f.window_size then f.count + 1 else f.count)

/-- Feed a whole list through the Hampel filter, collecting the outputs. -/
def hampelRun (f : HampelFilter) : List ℚ → HampelFilter × List ℚ
  | [] => (f, [])
  | x :: xs =>
    let step := f.filter x
    let rest := hampelRun step.1 xs
    (rest.1, step.2 :: rest.2)

/-- The state component of `HampelFilter.filter` is the same on every branch:
the pushed buffer with advanced index and bumped count. -/
theorem hampel_filter_fst (f : HampelFilter) (v : ℚ) :
    (f.filter v).1 =
      { f with
        buffer := f.buffer.set f.index v
        index := (f.index + 1) % f.window_size
        count := if f.count < f.window_size then f.count + 1 else f.count } := by
  simp only [HampelFilter.filter]
  repeat' split
  all_goals rfl

/-- With fewer than two previously stored values the Hampel filter passes the
input through. -/
theorem hampel_filter_small_passthrough (f : HampelFilter) (v : ℚ)
    (h : f.count + 1 < 3) : (f.filter v).2 = v := by
  simp only [HampelFilter.filter]
  rw [if_pos (by split <;> omega)]

/-- Setting a position at or past the taken slice does not change the slice. -/
theorem take_set_of_le (l : List ℚ) (n m : ℕ) (a : ℚ) (h : m ≤ n) :
    (l.set n a).take m = l.take m := by
  apply List.ext_getElem
  · simp
  · intro i h1 h2
    simp only [List.length_take, List.length_set] at h1
    rw [List.getElem_take, List.getElem_take, List.getElem_set_ne (by omega)]

/-- Selecting any in-range position of the insertion sort of an all-equal list
gives that common value. -/
theorem getD_insertionSort_all_eq (l : List ℚ) (c : ℚ) (k : ℕ)
    (hall : ∀ x ∈ l, x = c) (hk : k < l.length) :
    (l.insertionSort (· ≤ ·)).getD k 0 = c := by
  have hlen : (l.insertionSort (· ≤ ·)).length = l.length := List.length_insertionSort _ _
  have hk2 : k < (l.insertionSort (· ≤ ·)).length := by omega
  have hgd : (l.insertionSort (· ≤ ·)).getD k 0 = (l.insertionSort (· ≤ ·))[k] := by
    simp [List.getD_eq_getElem?_getD, List.getElem?_eq_getElem hk2]
  rw [hgd]
  exact hall _ ((List.mem_insertionSort _).mp (List.getElem_mem hk2))

/-- After pushing `c` into a filter whose occupied slice is all `c` (and whose
write index tracks the fill count while not yet full), the occupied slice is
still all `c`. -/
theorem hampel_postWindow_const (c : ℚ) (f : HampelFilter)
    (hlen : f.buffer.length = f.window_size)
    (hcount : f.count ≤ f.window_size)
    (hidx : f.count < f.window_size → f.index = f.count)
    (hall : ∀ x ∈ f.buffer.take f.count, x = c) :
    ∀ x ∈ f.postWindow c, x = c := by
  intro x hx
  unfold HampelFilter.postWindow at hx
  by_cases hlt : f.count < f.window_size
  · rw [if_pos hlt, hidx hlt, List.take_succ] at hx
    rcases List.mem_append.mp hx with hx1 | hx1
    · rw [take_set_of_le _ _ _ _ le_rfl] at hx1
      exact hall x hx1
    · have hset : (f.buffer.set f.count c)[f.count]? = some c := by
        rw [List.getElem?_set_self', List.getElem?_eq_getElem (by omega)]
        rfl
      rw [hset] at hx1
      simpa using hx1
  · rw [if_neg hlt, List.take_of_length_le (by simp only [List.length_set, hlen]; omega)] at hx
    rcases List.mem_or_eq_of_mem_set hx with hx1 | hx1
    · exact hall x (by rw [List.take_of_length_le (by omega)]; exact hx1)
    · exact hx1

/-- One constant-input step of the Hampel filter: the output is the input and
the occupancy invariants are preserved. -/
theorem hampel_const_step (c : ℚ) (f : HampelFilter)
    (hlen : f.buffer.length = f.window_size)
    (hcount : f.count ≤ f.window_size)
    (hidx : f.count < f.window_size → f.index = f.count)
    (hall : ∀ x ∈ f.buffer.take f.count, x = c) :
    (f.filter c).2 = c ∧
    (f.filter c).1.buffer.length = (f.filter c).1.window_size ∧
    (f.filter c).1.count ≤ (f.filter c).1.window_size ∧
    ((f.filter c).1.count < (f.filter c).1.window_size →
      (f.filter c).1.index = (f.filter c).1.count) ∧
    (∀ x ∈ (f.filter c).1.buffer.take (f.filter c).1.count, x = c) := by
  have hwin := hampel_postWindow_const c f hlen hcount hidx hall
  refine ⟨?_, ?_, ?_, ?_, ?_⟩
  · simp only [HampelFilter.filter]
    by_cases h3 : (if f.count < f.window_size then f.count + 1 else f.count) < 3
    · rw [if_pos h3]
    · rw [if_neg h3]
      have hwl : ((f.buffer.set f.index c).take
          (if f.count < f.window_size then f.count + 1 else f.count)).length =
          (if f.count < f.window_size then f.count + 1 else f.count) := by
        simp only [List.length_take, List.length_set, hlen]
        split <;> omega
      have hmid : (if f.count < f.window_size then f.count + 1 else f.count) / 2 <
          ((f.buffer.set f.index c).take
            (if f.count < f.window_size then f.count + 1 else f.count)).length := by
        rw [hwl]; omega
      have hmed : (((f.buffer.set f.index c).take
            (if f.count < f.window_size then f.count + 1 else f.count)).insertionSort
              (· ≤ ·)).getD
            ((if f.count < f.window_size then f.count + 1 else f.count) / 2) 0 = c :=
        getD_insertionSort_all_eq _ c _ hwin hmid
      rw [hmed]
      have hdev : ∀ y ∈ ((f.buffer.set f.index c).take
          (if f.count < f.window_size then f.count + 1 else f.count)).map
            (fun x => |x - c|), y = 0 := by
        intro y hy
        obtain ⟨x, hx, rfl⟩ := List.mem_map.mp hy
        rw [hwin x hx]
        simp
      have hmad : ((((f.buffer.set f.index c).take
            (if f.count < f.window_size then f.count + 1 else f.count)).map
              (fun x => |x - c|)).insertionSort (· ≤ ·)).getD
            ((if f.count < f.window_size then f.count + 1 else f.count) / 2) 0 = 0 :=
        getD_insertionSort_all_eq _ 0 _ hdev (by rw [List.length_map, hwl]; omega)
      rw [hmad]
      rw [if_neg (by norm_num)]
  · rw [hampel_filter_fst]
    simpa using hlen
  · rw [hampel_filter_fst]
    simp only []
    split <;> omega
  · rw [hampel_filter_fst]
    simp only []
    intro hlt
    by_cases hcw : f.count < f.window_size
    · rw [if_pos hcw] at hlt ⊢
      rw [hidx hcw, Nat.mod_eq_of_lt (by omega)]
    · rw [if_neg hcw] at hlt
      omega
  · rw [hampel_filter_fst]
    simp only []
    exact hwin

/-- Feeding any number of copies of a constant through a freshly reset Hampel
filter returns all of them unchanged. -/
theorem hampelRun_const (c : ℚ) : ∀ (n : ℕ) (f : HampelFilter),
    f.buffer.length = f.window_size → f.count ≤ f.window_size →
    (f.count < f.window_size → f.index = f.count) →
    (∀ x ∈ f.buffer.take f.count, x = c) →
    (hampelRun f (List.replicate n c)).2 = List.replicate n c := by
  intro n
  induction n with
  | zero => intro f _ _ _ _; rfl
  | succ n ih =>
    intro f h1 h2 h3 h4
    rw [List.replicate_succ]
    obtain ⟨hout, k1, k2, k3, k4⟩ := hampel_const_step c f h1 h2 h3 h4
    simp only [hampelRun]
    rw [hout, ih (f.filter c).1 k1 k2 k3 k4]

/-- C5: (a) the first two inputs after construction/reset pass through
unchanged; (b) from the third input on, the output is the window median
exactly when `MAD > 1e-6` and `|value - median| / MAD` exceeds the scaled
threshold, and the unchanged input otherwise; (c) the constructor's scaled
threshold is `threshold * 1.4826`; (d) a constant sequence is never altered. -/
theorem hampel_filter_spec :
    (∀ (ws : ℕ) (thr v1 v2 : ℚ),
      ((HampelFilter.init ws thr).filter v1).2 = v1 ∧
      (((HampelFilter.init ws thr).filter v1).1.filter v2).2 = v2) ∧
    (∀ (f : HampelFilter) (v : ℚ),
      f.buffer.length = f.window_size → f.count ≤ f.window_size →
      2 ≤ f.count → 3 ≤ f.window_size →
      (f.filter v).2 =
        if (1 : ℚ) / 1000000 < windowMad (f.postWindow v) ∧
            f.scaled_threshold <
              |v - windowMedian (f.postWindow v)| / windowMad (f.postWindow v) then
          windowMedian (f.postWindow v)
        else v) ∧
    (∀ (ws : ℕ) (thr : ℚ),
      (HampelFilter.init ws thr).scaled_threshold = thr * (14826 / 10000)) ∧
    (∀ (ws n : ℕ) (thr c : ℚ),
      (hampelRun (HampelFilter.init ws thr) (List.replicate n c)).2 =
        List.replicate n c) := by
  refine ⟨?_, ?_, ?_, ?_⟩
  · intro ws thr v1 v2
    constructor
    · exact hampel_filter_small_passthrough _ _ (by simp [HampelFilter.init])
    · apply hampel_filter_small_passthrough
      rw [hampel_filter_fst]
      simp only [HampelFilter.init]
      split <;> omega
  · intro f v hlen hcount hc2 hw3
    simp only [HampelFilter.filter]
    rw [if_neg (by split <;> omega)]
    have hwl : ((f.buffer.set f.index v).take
        (if f.count < f.window_size then f.count + 1 else f.count)).length =
        (if f.count < f.window_size then f.count + 1 else f.count) := by
      simp only [List.length_take, List.length_set, hlen]
      split <;> omega
    simp only [windowMedian, windowMad, HampelFilter.postWindow, hwl]
    split_ifs <;> rfl
  · intro ws thr
    rfl
  · intro ws n thr c
    apply hampelRun_const
    · simp [HampelFilter.init]
    · simp [HampelFilter.init]
    · simp [HampelFilter.init]
    · simp [HampelFilter.init]

/-- Concrete filter state for the C5 witness: window `[8, 12]` stored, about
to receive the outlier 100 (scaled threshold 6). -/
def C5f : HampelFilter :=
  { window_size := 3, scaled_threshold := 6, buffer := [8, 12, 0], count := 2, index := 2 }

/-- Witness for C5: at `C5f` all hypotheses hold and the outlier 100 is
replaced by the window median 12; a fresh filter passes its first input
through; a constant run of 9s is returned unchanged. -/
theorem hampel_filter_spec_witness :
    C5f.buffer.length = C5f.window_size ∧ C5f.count ≤ C5f.window_size ∧
    2 ≤ C5f.count ∧ 3 ≤ C5f.window_size ∧
    (C5f.filter 100).2 = 12 ∧
    ((HampelFilter.init 5 4).filter 7).2 = 7 ∧
    (hampelRun (HampelFilter.init 5 4) (List.replicate 2 9)).2 = List.replicate 2 9 := by
  refine ⟨rfl, by norm_num [C5f], by norm_num [C5f], by norm_num [C5f], ?_,
    (hampel_filter_spec.1 5 4 7 0).1, hampel_filter_spec.2.2.2 5 2 4 9⟩
  rw [hampel_filter_spec.2.1 C5f 100 rfl (by norm_num [C5f]) (by norm_num [C5f])
    (by norm_num [C5f])]
  have hwin : C5f.postWindow 100 = [8, 12, 100] := by
    norm_num [HampelFilter.postWindow, C5f]
  rw [hwin]
  have hmed : windowMedian ([8, 12, 100] : List ℚ) = 12 := by
    norm_num [windowMedian, List.insertionSort, List.orderedInsert]
  have hmad : windowMad ([8, 12, 100] : List ℚ) = 4 := by
    norm_num [windowMad, windowMedian, List.insertionSort, List.orderedInsert]
  rw [hmed, hmad, if_pos (by norm_num [C5f])]

/-- The amplitude-collection loop of `compute_spatial_turbulence` for an
explicit subcarrier selection (segmentation.py lines 196–204): for each
selected index `sc`, when the (I,Q) pair at element offset `sc*2` is in
bounds, append `sqrt(real*real + imag*imag)`. -/
noncomputable def amplitudeLoop (csi_data : List ℤ) : List ℕ → List ℝ
  | [] => []
  | sc :: rest =>
    if sc * 2 + 1 < csi_data.length then
      Real.sqrt ((csi_data.getD (sc * 2) 0 : ℝ) * (csi_data.getD (sc * 2) 0 : ℝ) +
          (csi_data.getD (sc * 2 + 1) 0 : ℝ) * (csi_data.getD (sc * 2 + 1) 0 : ℝ)) ::
        amplitudeLoop csi_data rest
    else amplitudeLoop csi_data rest

/-- `SegmentationContext.compute_spatial_turbulence(csi_data, selected)`
(segmentation.py lines 169–214) with an explicit selection list (the
`selected_subcarriers is None` default branch is exercised by no claim).
Returns the turbulence value and the amplitude list. -/
noncomputable def compute_spatial_turbulence (csi_data : List ℤ)
    (selected_subcarriers : List ℕ) : ℝ × List ℝ :=
  if csi_data.length < 2 then (0, [])
  else
    let amplitudes := amplitudeLoop csi_data selected_subcarriers
    if amplitudes.length < 2 then (0, amplitudes)
    else
      let n : ℝ := amplitudes.length
      let mean := amplitudes.sum / n
      let variance := (amplitudes.map fun x => (x - mean) ^ 2).sum / n
      (Real.sqrt variance, amplitudes)

/-- The spec's amplitude vector: `sqrt(I² + Q²)` of each selected subcarrier
whose (I,Q) pair at offset `sc*2` lies within the array bounds. -/
noncomputable def selectedAmplitudes (csi_data : List ℤ) (selected : List ℕ) : List ℝ :=
  selected.filterMap fun sc =>
    if sc * 2 + 1 < csi_data.length then
      some (Real.sqrt ((csi_data.getD (sc * 2) 0 : ℝ) ^ 2 +
        (csi_data.getD (sc * 2 + 1) 0 : ℝ) ^ 2))
    else none

/-- The spec's population standard deviation, computed two-pass: the mean in a
first pass, then the mean of squared deviations, then the square root. -/
noncomputable def populationStdTwoPass (l : List ℝ) : ℝ :=
  let n : ℝ := l.length
  let mean := l.sum / n
  Real.sqrt ((l.map fun x => (x - mean) ^ 2).sum / n)

/-- The code's amplitude loop collects exactly the spec's amplitude vector. -/
theorem amplitudeLoop_eq (csi_data : List ℤ) :
    ∀ sel : List ℕ, amplitudeLoop csi_data sel = selectedAmplitudes csi_data sel := by
  intro sel
  induction sel with
  | nil => rfl
  | cons sc rest ih =>
    simp only [amplitudeLoop, selectedAmplitudes, List.filterMap_cons]
    split_ifs with h
    · simp only [selectedAmplitudes] at ih
      rw [ih]
      norm_num [pow_two]
    · simpa [selectedAmplitudes] using ih

/-- C7: `compute_spatial_turbulence` returns 0 when fewer than two selected
subcarriers have a complete in-bounds (I,Q) pair, and otherwise the two-pass
population standard deviation of the in-bounds amplitudes. -/
theorem compute_spatial_turbulence_spec (csi_data : List ℤ) (sel : List ℕ) :
    (compute_spatial_turbulence csi_data sel).1 =
      if (selectedAmplitudes csi_data sel).length < 2 then 0
      else populationStdTwoPass (selectedAmplitudes csi_data sel) := by
  unfold compute_spatial_turbulence
  by_cases hcsi : csi_data.length < 2
  · rw [if_pos hcsi]
    have hemp : selectedAmplitudes csi_data sel = [] := by
      unfold selectedAmplitudes
      rw [List.filterMap_eq_nil_iff]
      intro sc _
      rw [if_neg]
      omega
    rw [hemp]
    simp
  · rw [if_neg hcsi]
    simp only [amplitudeLoop_eq]
    by_cases hlen : (selectedAmplitudes csi_data sel).length < 2
    · rw [if_pos hlen, if_pos hlen]
    · rw [if_neg hlen, if_neg hlen]
      rfl

/-- One candidate entry of `_select_with_spacing`'s input: a subcarrier index
with its NBVI score (nbvi_calibrator.py).  The index is an integer because the
Python code computes signed distances `abs(sc - s)`. -/
structure SubcarrierMetric where
  subcarrier : ℤ
  nbvi : ℚ
deriving Repr, DecidableEq

/-- `min(abs(sc - s) for s in selected)` (nbvi_calibrator.py line 401);
defined as 0 on an empty list (Python would raise — the call site always has
five already-selected entries). -/
def minAbsDist (sc : ℤ) : List ℤ → ℤ
  | [] => 0
  | s :: rest => rest.foldl (fun acc t => min acc |sc - t|) |sc - s|

/-- Phase 2 of `_select_with_spacing` (nbvi_calibrator.py lines 394–404):
greedily append candidates whose distance from every selected index is at
least `min_spacing`, until `k` are selected. -/
def selectLoopSpacing (k : ℕ) (min_spacing : ℤ) :
    List SubcarrierMetric → List ℤ → List ℤ
  | [], selected => selected
  | m :: rest, selected =>
    if k ≤ selected.length then selected
    else if min_spacing ≤ minAbsDist m.subcarrier selected then
      selectLoopSpacing k min_spacing rest (selected ++ [m.subcarrier])
    else
      selectLoopSpacing k min_spacing rest selected

/-- Phase 3 of `_select_with_spacing` (nvbi_calibrator.py lines 406–413):
backfill with the best remaining candidates regardless of spacing. -/
def backfillLoop (k : ℕ) : List SubcarrierMetric → List ℤ → List ℤ
  | [], selected => selected
  | m :: rest, selected =>
    if k ≤ selected.length then selected
    else if m.subcarrier ∈ selected then backfillLoop k rest selected
    else backfillLoop k rest (selected ++ [m.subcarrier])

/-- `NBVICalibrator._select_with_spacing(sorted_metrics, k)`
(nbvi_calibrator.py lines 375–417): take the five best unconditionally, fill
the remaining slots greedily under the spacing constraint, backfill if short,
and return the selection sorted ascending. -/
def select_with_spacing (min_spacing : ℤ) (sorted_metrics : List SubcarrierMetric)
    (k : ℕ) : List ℤ :=
  let selected1 := (sorted_metrics.take 5).map fun m => m.subcarrier
  let selected2 := selectLoopSpacing k min_spacing (sorted_metrics.drop 5) selected1
  let selected3 :=
    if selected2.length < k then backfillLoop k sorted_metrics selected2 else selected2
  selected3.insertionSort (· ≤ ·)

/-- The spacing loop only appends to the running selection. -/
theorem selectLoopSpacing_append (k : ℕ) (d : ℤ) :
    ∀ (ms : List SubcarrierMetric) (sel : List ℤ),
      ∃ t, selectLoopSpacing k d ms sel = sel ++ t := by
  intro ms
  induction ms with
  | nil => intro sel; exact ⟨[], (List.append_nil sel).symm⟩
  | cons m rest ih =>
    intro sel
    simp only [selectLoopSpacing]
    split_ifs with h1 h2
    · exact ⟨[], (List.append_nil sel).symm⟩
    · obtain ⟨t, ht⟩ := ih (sel ++ [m.subcarrier])
      exact ⟨[m.subcarrier] ++ t, by rw [ht, List.append_assoc]⟩
    · exact ih sel

/-- The backfill loop only appends to the running selection. -/
theorem backfillLoop_append (k : ℕ) :
    ∀ (ms : List SubcarrierMetric) (sel : List ℤ),
      ∃ t, backfillLoop k ms sel = sel ++ t := by
  intro ms
  induction ms with
  | nil => intro sel; exact ⟨[], (List.append_nil sel).symm⟩
  | cons m rest ih =>
    intro sel
    simp only [backfillLoop]
    split_ifs with h1 h2
    · exact ⟨[], (List.append_nil sel).symm⟩
    · exact ih sel
    · obtain ⟨t, ht⟩ := ih (sel ++ [m.subcarrier])
      exact ⟨[m.subcarrier] ++ t, by rw [ht, List.append_assoc]⟩

/-- The spacing loop never grows the selection beyond `k`. -/
theorem selectLoopSpacing_length_le (k : ℕ) (d : ℤ) :
    ∀ (ms : List SubcarrierMetric) (sel : List ℤ),
      sel.length ≤ k → (selectLoopSpacing k d ms sel).length ≤ k := by
  intro ms
  induction ms with
  | nil => intro sel h; exact h
  | cons m rest ih =>
    intro sel h
    simp only [selectLoopSpacing]
    split_ifs with h1 h2
    · exact h
    · exact ih _ (by simp only [List.length_append, List.length_singleton]; omega)
    · exact ih _ h

/-- The spacing loop keeps the combined pool duplicate-free: if the selection
and the remaining candidate indices are jointly duplicate-free on entry, the
result is duplicate-free and drawn from that pool. -/
theorem selectLoopSpacing_nodup (k : ℕ) (d : ℤ) :
    ∀ (ms : List SubcarrierMetric) (sel : List ℤ),
      (sel ++ ms.map fun m => m.subcarrier).Nodup →
      (selectLoopSpacing k d ms sel).Nodup ∧
        ∀ x ∈ selectLoopSpacing k d ms sel, x ∈ sel ++ ms.map fun m => m.subcarrier := by
  intro ms
  induction ms with
  | nil =>
    intro sel h
    simp only [selectLoopSpacing]
    constructor
    · simpa using h
    · intro x hx; simpa using hx
  | cons m rest ih =>
    intro sel h
    simp only [selectLoopSpacing]
    split_ifs with h1 h2
    · refine ⟨(List.Nodup.of_append_left h), ?_⟩
      intro x hx
      exact List.mem_append_left _ hx
    · have hperm : (sel ++ (m :: rest).map fun m => m.subcarrier) =
          ((sel ++ [m.subcarrier]) ++ rest.map fun m => m.subcarrier) := by
        simp
      rw [hperm] at h
      obtain ⟨hn, hsub⟩ := ih (sel ++ [m.subcarrier]) h
      refine ⟨hn, ?_⟩
      intro x hx
      have := hsub x hx
      simp only [List.mem_append, List.mem_singleton, List.map_cons, List.mem_cons] at this ⊢
      tauto
    · have hsl : (sel ++ rest.map fun m => m.subcarrier).Sublist
          (sel ++ (m :: rest).map fun m => m.subcarrier) := by
        apply List.Sublist.append_left
        simp only [List.map_cons]
        exact List.sublist_cons_self _ _
      obtain ⟨hn, hsub⟩ := ih sel (h.sublist hsl)
      refine ⟨hn, ?_⟩
      intro x hx
      exact hsl.mem (hsub x hx)

/-- The backfill loop preserves duplicate-freeness of the selection and draws
only from the selection and the candidate indices. -/
theorem backfillLoop_nodup (k : ℕ) :
    ∀ (ms : List SubcarrierMetric) (sel : List ℤ), sel.Nodup →
      (backfillLoop k ms sel).Nodup ∧
        ∀ x ∈ backfillLoop k ms sel, x ∈ sel ∨ x ∈ ms.map fun m => m.subcarrier := by
  intro ms
  induction ms with
  | nil =>
    intro sel h
    exact ⟨h, fun x hx => Or.inl hx⟩
  | cons m rest ih =>
    intro sel h
    simp only [backfillLoop]
    split_ifs with h1 h2
    · exact ⟨h, fun x hx => Or.inl hx⟩
    · obtain ⟨hn, hsub⟩ := ih sel h
      refine ⟨hn, ?_⟩
      intro x hx
      rcases hsub x hx with hx1 | hx1
      · exact Or.inl hx1
      · right; simp only [List.map_cons, List.mem_cons]; exact Or.inr hx1
    · obtain ⟨hn, hsub⟩ := ih (sel ++ [m.subcarrier])
        (by simp [List.nodup_append, h, h2])
      refine ⟨hn, ?_⟩
      intro x hx
      rcases hsub x hx with hx1 | hx1
      · rcases List.mem_append.mp hx1 with hx2 | hx2
        · exact Or.inl hx2
        · right
          simp only [List.mem_singleton] at hx2
          simp [hx2]
      · right; simp only [List.map_cons, List.mem_cons]; exact Or.inr hx1

/-- The backfill loop never grows the selection beyond `k`. -/
theorem backfillLoop_length_le (k : ℕ) :
    ∀ (ms : List SubcarrierMetric) (sel : List ℤ),
      sel.length ≤ k → (backfillLoop k ms sel).length ≤ k := by
  intro ms
  induction ms with
  | nil => intro sel h; exact h
  | cons m rest ih =>
    intro sel h
    simp only [backfillLoop]
    split_ifs with h1 h2
    · exact h
    · exact ih _ h
    · exact ih _ (by simp only [List.length_append, List.length_singleton]; omega)

/-- As long as enough fresh candidate indices remain, the backfill loop fills
the selection to exactly `k`. -/
theorem backfillLoop_length (k : ℕ) :
    ∀ (ms : List SubcarrierMetric) (sel : List ℤ),
      ((ms.map fun m => m.subcarrier).Nodup) → sel.Nodup → sel.length ≤ k →
      k ≤ sel.length +
        (((ms.map fun m => m.subcarrier).filter fun sc => decide (sc ∉ sel))).length →
      (backfillLoop k ms sel).length = k := by
  intro ms
  induction ms with
  | nil =>
    intro sel _ _ hle hfresh
    simp only [List.map_nil, List.filter_nil, List.length_nil, Nat.add_zero] at hfresh
    simpa [backfillLoop] using Nat.le_antisymm hle hfresh
  | cons m rest ih =>
    intro sel hnd hsel hle hfresh
    simp only [backfillLoop]
    split_ifs with h1 h2
    · omega
    · apply ih sel (by simpa [List.map_cons] using hnd.of_cons) hsel hle
      simp only [List.map_cons, List.filter_cons, decide_eq_true_eq] at hfresh
      rw [if_neg (by simpa using h2)] at hfresh
      exact hfresh
    · have hndc : (m.subcarrier :: rest.map fun m => m.subcarrier).Nodup := by
        rw [← List.map_cons]; exact hnd
      have hfreshm : m.subcarrier ∉ rest.map fun m => m.subcarrier :=
        (List.nodup_cons.mp hndc).1
      apply ih (sel ++ [m.subcarrier])
        (by simpa [List.map_cons] using hnd.of_cons)
        (by simp [List.nodup_append, hsel, h2])
        (by simp only [List.length_append, List.length_singleton]; omega)
      have hcongr : ((rest.map fun m => m.subcarrier).filter
            fun sc => decide (sc ∉ sel ++ [m.subcarrier])) =
          ((rest.map fun m => m.subcarrier).filter fun sc => decide (sc ∉ sel)) := by
        apply List.filter_congr
        intro x hx
        have hxne : x ≠ m.subcarrier := by
          intro hcontra
          exact hfreshm (hcontra ▸ hx)
        simp [List.mem_append, hxne]
      rw [hcongr]
      simp only [List.map_cons, List.filter_cons, decide_eq_true_eq] at hfresh
      rw [if_pos (by simpa using h2)] at hfresh
      simp only [List.length_cons, List.length_append, List.length_singleton] at hfresh ⊢
      omega

/-- Splitting a list by a boolean predicate splits its length. -/
theorem filter_split_length (L : List ℤ) (p : ℤ → Bool) :
    (L.filter p).length + (L.filter fun x => ! p x).length = L.length := by
  induction L with
  | nil => rfl
  | cons x rest ih =>
    by_cases hx : p x = true
    · simp [List.filter_cons, hx, ← ih]
      omega
    · simp only [Bool.not_eq_true] at hx
      simp [List.filter_cons, hx, ← ih]
      omega

/-- A duplicate-free sub-collection cannot out-count its host: the candidates
already selected number at most `sel.length`, so at least
`L.length - sel.length` fresh ones remain. -/
theorem fresh_candidates_bound (L sel : List ℤ) (hL : L.Nodup) (hsel : sel.Nodup)
    (hsub : ∀ x ∈ sel, x ∈ L) :
    L.length ≤ sel.length + (L.filter fun sc => decide (sc ∉ sel)).length := by
  have hmemlen : (L.filter fun sc => decide (sc ∈ sel)).length = sel.length := by
    have hfin : (L.filter fun sc => decide (sc ∈ sel)).toFinset = sel.toFinset := by
      ext x
      simp only [List.mem_toFinset, List.mem_filter, decide_eq_true_eq]
      exact ⟨fun h => h.2, fun h => ⟨hsub x h, h⟩⟩
    have h1 := List.toFinset_card_of_nodup (hL.filter fun sc => decide (sc ∈ sel))
    have h2 := List.toFinset_card_of_nodup hsel
    rw [hfin, h2] at h1
    exact h1.symm
  have hsplit := filter_split_length L fun sc => decide (sc ∈ sel)
  have hnotform : (L.filter fun x => ! decide (x ∈ sel)) =
      (L.filter fun sc => decide (sc ∉ sel)) := by
    apply List.filter_congr
    intro x _
    simp
  rw [hnotform] at hsplit
  omega

/-- C8: on a candidate list sorted by NBVI ascending with at least 12 distinct
subcarrier indices, `_select_with_spacing` with `k = 12` returns exactly 12
indices, sorted ascending, and the subcarriers of the five candidates with
lowest NBVI (the first five entries) are always among them, for every
`min_spacing`. -/
theorem select_with_spacing_spec (min_spacing : ℤ) (ms : List SubcarrierMetric)
    (hnd : (ms.map fun m => m.subcarrier).Nodup) (hlen : 12 ≤ ms.length)
    (_hsorted : ms.Pairwise fun a b => a.nbvi ≤ b.nbvi) :
    (select_with_spacing min_spacing ms 12).length = 12 ∧
    (select_with_spacing min_spacing ms 12).Sorted (· ≤ ·) ∧
    ∀ m ∈ ms.take 5, m.subcarrier ∈ select_with_spacing min_spacing ms 12 := by
  have hpool : ((ms.take 5).map fun m => m.subcarrier) ++
      ((ms.drop 5).map fun m => m.subcarrier) = ms.map fun m => m.subcarrier := by
    rw [← List.map_append, List.take_append_drop]
  have hndpool : (((ms.take 5).map fun m => m.subcarrier) ++
      ((ms.drop 5).map fun m => m.subcarrier)).Nodup := by
    rw [hpool]; exact hnd
  obtain ⟨hn2, hsub2⟩ := selectLoopSpacing_nodup 12 min_spacing (ms.drop 5)
    ((ms.take 5).map fun m => m.subcarrier) hndpool
  have hsub2m : ∀ x ∈ selectLoopSpacing 12 min_spacing (ms.drop 5)
      ((ms.take 5).map fun m => m.subcarrier), x ∈ ms.map fun m => m.subcarrier := by
    intro x hx
    have hx2 := hsub2 x hx
    rwa [hpool] at hx2
  have hlen1 : ((ms.take 5).map fun m => m.subcarrier).length = 5 := by
    rw [List.length_map, List.length_take]
    omega
  obtain ⟨t2, ht2⟩ := selectLoopSpacing_append 12 min_spacing (ms.drop 5)
    ((ms.take 5).map fun m => m.subcarrier)
  set sel2 := selectLoopSpacing 12 min_spacing (ms.drop 5)
    ((ms.take 5).map fun m => m.subcarrier) with hsel2def
  have hlen2 : sel2.length ≤ 12 :=
    selectLoopSpacing_length_le _ _ _ _ (by omega)
  have hlen3 : (if sel2.length < 12 then backfillLoop 12 ms sel2 else sel2).length = 12 := by
    by_cases hb : sel2.length < 12
    · rw [if_pos hb]
      apply backfillLoop_length 12 ms sel2 hnd hn2 (Nat.le_of_lt hb)
      have hfb := fresh_candidates_bound (ms.map fun m => m.subcarrier) sel2 hnd hn2 hsub2m
      rw [List.length_map] at hfb
      omega
    · rw [if_neg hb]; omega
  obtain ⟨t3, ht3⟩ : ∃ t, (if sel2.length < 12 then backfillLoop 12 ms sel2 else sel2)
      = sel2 ++ t := by
    by_cases hb : sel2.length < 12
    · rw [if_pos hb]; exact backfillLoop_append 12 ms sel2
    · rw [if_neg hb]; exact ⟨[], (List.append_nil sel2).symm⟩
  refine ⟨?_, ?_, ?_⟩
  · show ((if sel2.length < 12 then backfillLoop 12 ms sel2 else sel2).insertionSort
      (· ≤ ·)).length = 12
    rw [List.length_insertionSort]
    exact hlen3
  · show ((if sel2.length < 12 then backfillLoop 12 ms sel2 else sel2).insertionSort
      (· ≤ ·)).Sorted (· ≤ ·)
    exact List.sorted_insertionSort _ _
  · intro m hm
    show m.subcarrier ∈ (if sel2.length < 12 then backfillLoop 12 ms sel2
      else sel2).insertionSort (· ≤ ·)
    rw [List.mem_insertionSort, ht3]
    apply List.mem_append_left
    rw [ht2]
    exact List.mem_append_left _ (List.mem_map_of_mem _ hm)

/-- Concrete candidate list for the C8 witness: subcarriers 11–22 with NBVI
1–12, sorted ascending. -/
def C8metrics : List SubcarrierMetric :=
  [⟨11, 1⟩, ⟨12, 2⟩, ⟨13, 3⟩, ⟨14, 4⟩, ⟨15, 5⟩, ⟨16, 6⟩,
   ⟨17, 7⟩, ⟨18, 8⟩, ⟨19, 9⟩, ⟨20, 10⟩, ⟨21, 11⟩, ⟨22, 12⟩]

/-- Witness for C8 at `C8metrics` with `min_spacing = 1`. -/
theorem select_with_spacing_spec_witness :
    (C8metrics.map fun m => m.subcarrier).Nodup ∧ 12 ≤ C8metrics.length ∧
    C8metrics.Pairwise (fun a b => a.nbvi ≤ b.nbvi) ∧
    (select_with_spacing 1 C8metrics 12).length = 12 ∧
    (select_with_spacing 1 C8metrics 12).Sorted (· ≤ ·) ∧
    (11 : ℤ) ∈ select_with_spacing 1 C8metrics 12 := by
  have h := select_with_spacing_spec 1 C8metrics (by decide) (by decide)
    (by decide)
  exact ⟨by decide, by decide, by decide, h.1, h.2.1,
    h.2.2 ⟨11, 1⟩ (by decide)⟩

end Espectre
